import Mathlib

/-!
Shallow embedding of the CommerceAnalyticsDashboard core:
the CSV record parser and validator (`CsvImportService`), the
filter-and-aggregate dataflow (`AnalyticsDataService`) and the
extrema-preserving chart downsampler
(`VirtualizedChartComponent.virtualizeData`).

JavaScript numbers are embedded as `Rat` (exact arithmetic on the decimal
literals the program manipulates), JS strings as `String` with character
level operations on `String.data`, and `moment` objects as a `Moment`
record carrying a validity flag and a totally ordered timestamp.
-/

namespace CommerceAnalytics

/-! ## JS string and number primitives -/

/-- Whitespace test used by `String.prototype.trim`; the repository only
exercises space, tab, carriage return and newline. -/
def isJsWhitespace (c : Char) : Bool :=
  c = ' ' || c = '\t' || c = '\r' || c = '\n'

/-- `String.prototype.trim` on a character list: drop whitespace from both
ends. -/
def trimChars (l : List Char) : List Char :=
  ((l.dropWhile isJsWhitespace).reverse.dropWhile isJsWhitespace).reverse

/-- `String.prototype.trim`. -/
def jsTrim (s : String) : String :=
  String.mk (trimChars s.data)

/-- `String.prototype.split(sep)` for a one-character separator: always
returns at least one piece, empty pieces included. -/
def splitOnChar (sep : Char) : List Char → List (List Char)
  | [] => [[]]
  | c :: rest =>
    match splitOnChar sep rest with
    | [] => [[]]
    | h :: t => if c = sep then [] :: h :: t else (c :: h) :: t

/-- Value of a list of decimal digit characters. -/
def digitsVal (l : List Char) : Nat :=
  l.foldl (fun a c => a * 10 + (c.toNat - 48)) 0

/-- `parseFloat`: optional sign then a decimal-digit prefix with an
optional fractional part; `none` models `NaN` (no digits at all).  The
exponent forms of `parseFloat`, never produced by the repository, are not
modelled. -/
def jsParseFloat (s : String) : Option Rat :=
  let l := s.data
  let sign : Rat := if l.head? = some '-' then -1 else 1
  let l := if l.head? = some '-' || l.head? = some '+' then l.tail else l
  let ip := l.takeWhile Char.isDigit
  let rest := l.dropWhile Char.isDigit
  let fp := match rest with
    | '.' :: r => r.takeWhile Char.isDigit
    | _ => []
  if ip = [] && fp = [] then none
  else some (sign * ((digitsVal ip : Rat) + (digitsVal fp : Rat) / (10 ^ fp.length : Nat)))

/-- `parseInt`: optional sign then a decimal-digit prefix; `none` models
`NaN`. -/
def jsParseInt (s : String) : Option Int :=
  let l := s.data
  let sign : Int := if l.head? = some '-' then -1 else 1
  let l := if l.head? = some '-' || l.head? = some '+' then l.tail else l
  let ds := l.takeWhile Char.isDigit
  if ds = [] then none else some (sign * (digitsVal ds : Int))

/-- JS `x || dflt` on an optional string: `undefined` and the empty string
are falsy. -/
def jsOrStr (o : Option String) (dflt : String) : String :=
  match o with
  | some s => if s = "" then dflt else s
  | none => dflt

/-- JS `parseFloat(tok) || 0`: `NaN` is falsy, and `0` maps to `0` either
way. -/
def jsOr0 (o : Option Rat) : Rat :=
  o.getD 0

/-- JS `parseInt(tok) || 1`: both `NaN` and `0` are falsy and fall back to
`1`. -/
def jsOr1 (o : Option Int) : Int :=
  match o with
  | some v => if v = 0 then 1 else v
  | none => 1

/-- Insertion-ordered deduplication: the element sequence of a JS `Set`
built by inserting the elements of `l` left to right. -/
def insertionDedup [DecidableEq α] (l : List α) : List α :=
  l.foldl (fun acc x => if x ∈ acc then acc else acc ++ [x]) []

/-- `Math.min(...values)` for a nonempty list (`0` on the empty list,
which the program never reaches). -/
def jsMinList (l : List Rat) : Rat :=
  match l with
  | [] => 0
  | h :: t => t.foldl min h

/-- `Math.max(...values)` for a nonempty list. -/
def jsMaxList (l : List Rat) : Rat :=
  match l with
  | [] => 0
  | h :: t => t.foldl max h

/-! ## Moment model

A `moment` object is embedded as a validity flag plus an integer
timestamp; comparisons between valid moments agree with calendar order
because `momentParse` encodes a date `y-m-d` as `y * 10000 + m * 100 + d`,
an order embedding of day-precision dates. -/

/-- A `moment` value: `valid` models `isValid()`, `ts` models `valueOf()`
up to a monotone re-scaling. -/
structure Moment where
  valid : Bool
  ts : Int
deriving DecidableEq

/-- Number of days in a month of the Gregorian calendar. -/
def daysInMonth (y m : Nat) : Nat :=
  if m = 2 then (if (y % 4 = 0 && y % 100 ≠ 0) || y % 400 = 0 then 29 else 28)
  else if m = 4 || m = 6 || m = 9 || m = 11 then 30
  else 31

/-- `moment(s)` on an ISO `YYYY-MM-DD` string, the only date format the
repository produces or tests; any other shape is embedded as an invalid
moment. -/
def momentParse (s : String) : Moment :=
  match s.data with
  | [y1, y2, y3, y4, '-', m1, m2, '-', d1, d2] =>
    if y1.isDigit && y2.isDigit && y3.isDigit && y4.isDigit
        && m1.isDigit && m2.isDigit && d1.isDigit && d2.isDigit then
      let y := digitsVal [y1, y2, y3, y4]
      let m := digitsVal [m1, m2]
      let d := digitsVal [d1, d2]
      if 1 ≤ m && m ≤ 12 && 1 ≤ d && d ≤ daysInMonth y m then
        { valid := true, ts := (y * 10000 + m * 100 + d : Nat) }
      else { valid := false, ts := 0 }
    else { valid := false, ts := 0 }
  | _ => { valid := false, ts := 0 }

/-- `moment(undefined)`, the current clock time: a valid moment whose
exact value no claim depends on. -/
def momentNow : Moment :=
  { valid := true, ts := 0 }

/-- `a.isBetween(b, c)` with the default `'()'` inclusivity: strict on
both bounds, false as soon as any operand is invalid (`NaN` comparisons
are false in JS). -/
def momentIsBetween (a b c : Moment) : Bool :=
  a.valid && b.valid && c.valid && b.ts < a.ts && a.ts < c.ts

/-! ## Data model (`analytics.models`) -/

/-- The `SalesData` interface. `orders` is the `orderCount` field of the
spec; `productName` is optional. -/
structure SalesData where
  id : String
  date : Moment
  revenue : Rat
  orders : Int
  customerId : String
  productId : String
  productName : Option String := none
  category : String
  region : String
deriving DecidableEq

/-- The `FilterOptions` interface; `dateStart`/`dateEnd` flatten the
nested `dateRange` record. -/
structure FilterOptions where
  dateStart : Moment
  dateEnd : Moment
  regions : List String
  categories : List String
  customerSegments : List String
deriving DecidableEq

/-- The `DashboardMetrics` interface; the three `periodComparison`
components are flattened into fields. -/
structure DashboardMetrics where
  totalRevenue : Rat
  totalOrders : Nat
  averageOrderValue : Rat
  customerCount : Nat
  conversionRate : Rat
  periodRevenue : Rat
  periodOrders : Rat
  periodCustomers : Rat
deriving DecidableEq

/-- The `ProductMetrics` interface. The source also carries a
`conversionRate` obtained from `Math.random()`; that nondeterministic
placeholder is not part of the embedding and no claim mentions it. -/
structure ProductMetrics where
  productId : String
  name : String
  category : String
  totalRevenue : Rat
  totalOrders : Nat
  averageOrderValue : Rat
deriving DecidableEq

/-- A chart point as consumed by `virtualizeData`: both `TimeSeriesData`
and `ChartDataPoint` enter the downsampler only through their numeric
`value` / `y` coordinate, embedded here as `y`. -/
structure ChartPoint where
  x : Int
  y : Rat
deriving DecidableEq

instance : Inhabited ChartPoint := ⟨⟨0, 0⟩⟩

/-! ## CsvImportService -/

/-- `parseCsvLine`: quote-aware comma tokenizer.  A double quote toggles
the in-quotes mode, a comma outside quotes ends the current token, and
every token is trimmed. -/
def parseCsvLineAux : List Char → Bool → List Char → List String → List String
  | [], _, current, result => result ++ [String.mk (trimChars current.reverse)]
  | c :: rest, inQuotes, current, result =>
    if c = '"' then parseCsvLineAux rest (!inQuotes) current result
    else if c = ',' && !inQuotes then
      parseCsvLineAux rest inQuotes [] (result ++ [String.mk (trimChars current.reverse)])
    else parseCsvLineAux rest inQuotes (c :: current) result

/-- `CsvImportService.parseCsvLine`. -/
def parseCsvLine (line : String) : List String :=
  parseCsvLineAux line.data false [] []

/-- `CsvImportService.isValidSalesData`: id, customerId, productId,
category and region truthy (nonempty), date valid, revenue a number that
is not negative.  The `orders` field is not inspected. -/
def isValidSalesData (data : SalesData) : Bool :=
  data.id ≠ "" && data.date.valid && 0 ≤ data.revenue
    && data.customerId ≠ "" && data.productId ≠ "" && data.category ≠ "" && data.region ≠ ""

/-- The `row` object of the parse loop: `headers.forEach((header, index)
=> row[header] = values[index])`, a property map in which a duplicated
header keeps its last assignment. -/
def buildRow (headers values : List String) : List (String × String) :=
  headers.zip values

/-- Property lookup `row[k]`: the last assignment to `k` wins,
`undefined` (`none`) when `k` was never assigned. -/
def rowGet (row : List (String × String)) (k : String) : Option String :=
  ((row.reverse).find? (fun p => p.1 = k)).map (fun p => p.2)

/-- `moment(row.date)`: parse the token when present, current clock time
when the column is absent. -/
def momentOfOpt (o : Option String) : Moment :=
  match o with
  | some s => momentParse s
  | none => momentNow

/-- The `SalesData` object constructed from one tokenized data row of
1-based index `i` (the header excluded), with the defaulting policy for
absent or blank fields and the numeric coercion fallbacks. -/
def parsedItem (headers : List String) (i : Nat) (values : List String) : SalesData :=
  let row := buildRow headers values
  { id := jsOrStr (rowGet row "id") ("order_" ++ Nat.repr i)
    date := momentOfOpt (rowGet row "date")
    revenue := jsOr0 ((rowGet row "revenue").bind jsParseFloat)
    orders := jsOr1 ((rowGet row "orders").bind jsParseInt)
    customerId := jsOrStr (rowGet row "customerId") ("customer_" ++ Nat.repr i)
    productId := jsOrStr (rowGet row "productId") ("product_" ++ Nat.repr i)
    productName := none
    category := jsOrStr (rowGet row "category") "Unknown"
    region := jsOrStr (rowGet row "region") "Unknown" }

/-- Body of the parse loop for the data line of 1-based index `i`:
tokenize, skip on column-count mismatch, construct the item, then keep it
only when `isValidSalesData` accepts it. -/
def parseRow (headers : List String) (i : Nat) (line : String) : Option SalesData :=
  let values := parseCsvLine line
  if values.length ≠ headers.length then none
  else
    let item := parsedItem headers i values
    if isValidSalesData item then some item else none

/-- The parse after line splitting: the first nonblank line is the
comma-separated header, the remaining lines run through `parseRow` with
their 1-based index.  On input with no nonblank line the source would
fault on `lines[0]`; either way no record is produced. -/
def parseCsvBody : List String → List SalesData
  | [] => []
  | headerLine :: dataLines =>
    let headers := (splitOnChar ',' headerLine.data).map (fun cs => jsTrim (String.mk cs))
    (List.enumFrom 1 dataLines).filterMap (fun p => parseRow headers p.1 p.2)

/-- `CsvImportService.parseCsvToSalesData`: split on newlines, drop blank
(whitespace-only) lines, then parse header and data lines. -/
def parseCsvToSalesData (csvText : String) : List SalesData :=
  parseCsvBody (((splitOnChar '\n' csvText.data).map String.mk).filter
    (fun l => jsTrim l ≠ ""))

/-- Join a list of strings with a separator, as `Array.prototype.join`. -/
def joinWith (sep : String) : List String → String
  | [] => ""
  | h :: t => t.foldl (fun acc s => acc ++ sep ++ s) h

/-- `CsvImportService.generateSampleCsvContent`: the fixed 6-row sample
dataset. -/
def generateSampleCsvContent : String :=
  let headers := ["id", "date", "revenue", "orders", "customerId", "productId",
    "productName", "category", "region"]
  let sampleRows := [
    ["order_001", "2025-10-01", "125.99", "1", "customer_1001", "product_501",
      "Wireless Headphones", "Electronics", "North America"],
    ["order_002", "2025-10-01", "89.50", "1", "customer_1002", "product_502",
      "Cotton T-Shirt", "Clothing", "Europe"],
    ["order_003", "2025-10-02", "234.75", "1", "customer_1003", "product_503",
      "Garden Tools", "Home & Garden", "Asia Pacific"],
    ["order_004", "2025-10-02", "67.25", "1", "customer_1004", "product_504",
      "Running Shoes", "Sports", "North America"],
    ["order_005", "2025-10-03", "29.99", "1", "customer_1005", "product_505",
      "Programming Book", "Books", "Europe"],
    ["order_006", "2025-10-06", "29.99", "1", "customer_1005", "product_505",
      "Programming Book", "Books", "Europe"]]
  joinWith "\n" (joinWith "," headers :: sampleRows.map (joinWith ","))

/-! ## AnalyticsDataService -/

/-- `AnalyticsDataService.applyFilters`: a record passes when its date
`isBetween` the filter bounds (default exclusive inclusivity), its region
is unrestricted or listed, and its category is unrestricted or listed.
`customerSegments` is never read. -/
def applyFilters (data : List SalesData) (filters : FilterOptions) : List SalesData :=
  data.filter (fun item =>
    momentIsBetween item.date filters.dateStart filters.dateEnd
      && (filters.regions.isEmpty || filters.regions.contains item.region)
      && (filters.categories.isEmpty || filters.categories.contains item.category))

/-- `new Set(l).size`: the number of distinct elements, counted through
the insertion-ordered JS set model. -/
def jsSetSize [DecidableEq α] (l : List α) : Nat :=
  (insertionDedup l).length

/-- `AnalyticsDataService.calculateDashboardMetrics`: revenue summed by
`reduce`, orders counted as `data.length`, average guarded against the
empty list, distinct customers via `new Set`, and the mock
`conversionRate` / `periodComparison` constants. -/
def calculateDashboardMetrics (data : List SalesData) : DashboardMetrics :=
  let totalRevenue := data.foldl (fun sum item => sum + item.revenue) 0
  let totalOrders := data.length
  let uniqueCustomers := jsSetSize (data.map (fun item => item.customerId))
  { totalRevenue := totalRevenue
    totalOrders := totalOrders
    averageOrderValue := if totalOrders > 0 then totalRevenue / (totalOrders : Rat) else 0
    customerCount := uniqueCustomers
    conversionRate := mkRat 45 1000
    periodRevenue := mkRat 12 100
    periodOrders := mkRat 8 100
    periodCustomers := mkRat 15 100 }

/-- A fresh product map entry: default name `Product {productId}` and the
category of the first record seen for the product. -/
def newProductEntry (item : SalesData) : ProductMetrics :=
  { productId := item.productId
    name := "Product " ++ item.productId
    category := item.category
    totalRevenue := 0
    totalOrders := 0
    averageOrderValue := 0 }

/-- Mutation of one product map entry by one contributing record:
accumulate revenue and order count, recompute the running average, and
overwrite the default name when the record carries a nonempty
`productName` and the current name still starts with `Product `. -/
def updateProductEntry (p : ProductMetrics) (item : SalesData) : ProductMetrics :=
  let tr := p.totalRevenue + item.revenue
  let tc := p.totalOrders + 1
  { p with
    totalRevenue := tr
    totalOrders := tc
    averageOrderValue := tr / (tc : Rat)
    name :=
      match item.productName with
      | some pn =>
        if pn ≠ "" && "Product ".data.isPrefixOf p.name.data then pn else p.name
      | none => p.name }

/-- One iteration of the `data.forEach` loop of
`calculateProductMetrics` over the insertion-ordered product map,
embedded as an association list keyed by `productId`. -/
def productStep (acc : List ProductMetrics) (item : SalesData) : List ProductMetrics :=
  let acc :=
    if acc.any (fun p => p.productId = item.productId) then acc
    else acc ++ [newProductEntry item]
  acc.map (fun p => if p.productId = item.productId then updateProductEntry p item else p)

/-- `AnalyticsDataService.calculateProductMetrics`: fold the records into
the product map and list its values in insertion order. -/
def calculateProductMetrics (data : List SalesData) : List ProductMetrics :=
  data.foldl productStep []

/-- Outcome of fetching raw CSV text over HTTP: the text, or a transport
error. -/
inductive FetchResult where
  | ok (text : String)
  | fetchErr (msg : String)
deriving DecidableEq

/-- `AnalyticsDataService.loadSampleDataFromAssets`: the record set the
subscription stores.  `loadSalesDataFromCsv` maps the fetched text
through the parser; `catchError` replaces a failed fetch by the empty
record set (plus a console diagnostic). -/
def loadSampleDataFromAssets (fetch : FetchResult) : List SalesData :=
  match fetch with
  | .ok text => parseCsvToSalesData text
  | .fetchErr _ => []

/-- `AnalyticsDataService.importSalesDataFromCsv`, as a transition on the
record-set state: on success the `map` operator stores and returns the
parsed records; on failure there is no `catchError`, so the error
propagates to the subscriber and the stored record set is left
untouched. -/
def importSalesDataFromCsv (state : List SalesData) (fetch : FetchResult) :
    List SalesData × Except String (List SalesData) :=
  match fetch with
  | .ok text =>
    let d := parseCsvToSalesData text
    (d, Except.ok d)
  | .fetchErr e => (state, Except.error e)

/-! ## VirtualizedChartComponent.virtualizeData -/

/-- Consecutive chunks of size `step` (the last may be shorter), with the
input length as structural fuel; `chunksOf` supplies `l.length`, which is
enough fuel whenever `0 < step`. -/
def chunksOfAux (step : Nat) : Nat → List ChartPoint → List (List ChartPoint)
  | 0, _ => []
  | _ + 1, [] => []
  | fuel + 1, l@(_ :: _) => l.take step :: chunksOfAux step fuel (l.drop step)

/-- The chunk decomposition of the `for (let i = 0; i < data.length; i +=
step)` loop. -/
def chunksOf (step : Nat) (l : List ChartPoint) : List (List ChartPoint) :=
  chunksOfAux step l.length l

/-- `values.indexOf(Math.min(...values))` on the y-values of a chunk. -/
def minIdx (chunk : List ChartPoint) : Nat :=
  let values := chunk.map (fun p => p.y)
  values.indexOf (jsMinList values)

/-- `values.indexOf(Math.max(...values))` on the y-values of a chunk. -/
def maxIdx (chunk : List ChartPoint) : Nat :=
  let values := chunk.map (fun p => p.y)
  values.indexOf (jsMaxList values)

/-- Representatives emitted for one chunk: a single-element chunk is
emitted as is; otherwise the JS set `{0, minIndex, maxIndex, length - 1}`
is iterated in insertion order and each in-range index is pushed (the
range test mirrors `if (index < chunk.length)`). -/
def chunkReps (chunk : List ChartPoint) : List ChartPoint :=
  if chunk.length = 1 then chunk
  else
    let indicesToAdd := insertionDedup [0, minIdx chunk, maxIdx chunk, chunk.length - 1]
    indicesToAdd.filterMap (fun index => chunk.get? index)

/-- `VirtualizedChartComponent.virtualizeData`: identity below the
`maxDataPoints` threshold, otherwise chunking with `step =
Math.ceil(length / maxDataPoints)` (the ceiling division is faithful for
`maxDataPoints ≥ 1`; the component default is 1000) and per-chunk
representative selection. -/
def virtualizeData (maxDataPoints : Nat) (data : List ChartPoint) : List ChartPoint :=
  if data.length ≤ maxDataPoints then data
  else
    let step := (data.length + maxDataPoints - 1) / maxDataPoints
    ((chunksOf step data).map chunkReps).flatten

/-! ## Concrete inputs used by witnesses and counterexamples -/

/-- Default record used with `List.headD` in closed statements. -/
def defaultSalesData : SalesData :=
  { id := "", date := ⟨false, 0⟩, revenue := 0, orders := 1, customerId := "",
    productId := "", productName := none, category := "", region := "" }

/-- Default aggregate used with `List.headD` in closed statements. -/
def defaultProductMetrics : ProductMetrics :=
  { productId := "", name := "", category := "", totalRevenue := 0, totalOrders := 0,
    averageOrderValue := 0 }

/-- The boundary record of the repository test: dated 2024-01-15, the
start bound of the tested date range. -/
def c1Record : SalesData :=
  { id := "order1", date := ⟨true, 20240115⟩, revenue := 250, orders := 2,
    customerId := "customer1", productId := "product1", productName := some "Widget A",
    category := "Electronics", region := "North" }

/-- The filter of the repository test: date range 2024-01-15 to
2024-01-16, no region or category restriction. -/
def c1Filters : FilterOptions :=
  { dateStart := ⟨true, 20240115⟩, dateEnd := ⟨true, 20240116⟩, regions := [],
    categories := [], customerSegments := [] }

/-- 201 points, one more than the 200-point threshold used to trigger the
downsampler. -/
def c3WitnessPoints : List ChartPoint :=
  (List.range 201).map (fun i => ⟨(i : Int), (i : Rat)⟩)

/-- The header row of the canonical sample dataset. -/
def c6Headers : List String :=
  ["id", "date", "revenue", "orders", "customerId", "productId", "productName",
    "category", "region"]

/-- A data row that supplies only a date, as in the repository defaulting
test. -/
def c6Line : String := ",2025-10-05,,,,,,,"

/-- A record held by the dataset before a failing import. -/
def c8Record : SalesData :=
  { id := "order1", date := ⟨true, 20240115⟩, revenue := 100, orders := 1,
    customerId := "c1", productId := "p1", productName := none, category := "Cat",
    region := "North" }

/-- CSV input whose orders token is the negative integer -5. -/
def c9NegativeOrdersCsv : String :=
  "id,date,revenue,orders,customerId,productId,category,region\nid1,2024-01-01,5,-5,c1,p1,Cat,Reg"

/-- CSV input whose header declares a productName column and whose data
row supplies a non-empty value for it. -/
def c10Csv : String :=
  "id,date,revenue,orders,customerId,productId,productName,category,region\nid1,2024-01-01,5,1,c1,p1,Fancy Widget,Cat,Reg"

/-! ## Helper lemmas: the JS set model -/

theorem insertionDedup_step_mem [DecidableEq α] (acc : List α) (x a : α) :
    (a ∈ (if x ∈ acc then acc else acc ++ [x])) ↔ (a ∈ acc ∨ a = x) := by
  by_cases hx : x ∈ acc
  · simp only [if_pos hx]
    constructor
    · exact fun h => Or.inl h
    · rintro (h | rfl)
      · exact h
      · exact hx
  · simp [if_neg hx]

theorem insertionDedup_foldl_mem [DecidableEq α] (l acc : List α) (a : α) :
    (a ∈ l.foldl (fun acc x => if x ∈ acc then acc else acc ++ [x]) acc) ↔
      (a ∈ acc ∨ a ∈ l) := by
  induction l generalizing acc with
  | nil => simp
  | cons x t ih =>
    simp only [List.foldl_cons, ih, insertionDedup_step_mem, List.mem_cons]
    tauto

theorem insertionDedup_mem [DecidableEq α] (l : List α) (a : α) :
    a ∈ insertionDedup l ↔ a ∈ l := by
  unfold insertionDedup
  rw [insertionDedup_foldl_mem]
  simp

theorem insertionDedup_foldl_nodup [DecidableEq α] (l : List α) :
    ∀ acc : List α, acc.Nodup →
      (l.foldl (fun acc x => if x ∈ acc then acc else acc ++ [x]) acc).Nodup := by
  induction l with
  | nil => intro acc h; simpa using h
  | cons x t ih =>
    intro acc h
    simp only [List.foldl_cons]
    apply ih
    by_cases hx : x ∈ acc
    · simpa [if_pos hx] using h
    · rw [if_neg hx]
      simpa [List.nodup_append] using ⟨h, hx⟩

theorem insertionDedup_nodup [DecidableEq α] (l : List α) : (insertionDedup l).Nodup :=
  insertionDedup_foldl_nodup l [] List.nodup_nil

theorem insertionDedup_foldl_length [DecidableEq α] (l : List α) :
    ∀ acc : List α,
      (l.foldl (fun acc x => if x ∈ acc then acc else acc ++ [x]) acc).length ≤
        acc.length + l.length := by
  induction l with
  | nil => intro acc; simp
  | cons x t ih =>
    intro acc
    simp only [List.foldl_cons, List.length_cons]
    calc (List.foldl _ (if x ∈ acc then acc else acc ++ [x]) t).length
        ≤ (if x ∈ acc then acc else acc ++ [x]).length + t.length := ih _
      _ ≤ acc.length + (t.length + 1) := by
          by_cases hx : x ∈ acc
          · rw [if_pos hx]; omega
          · have hlen : (acc ++ [x]).length = acc.length + 1 := by simp
            rw [if_neg hx, hlen]; omega

theorem insertionDedup_length_le [DecidableEq α] (l : List α) :
    (insertionDedup l).length ≤ l.length := by
  have := insertionDedup_foldl_length l []
  simpa using this

theorem insertionDedup_length_eq_card [DecidableEq α] (l : List α) :
    (insertionDedup l).length = l.toFinset.card := by
  have hnd := insertionDedup_nodup l
  have htf : (insertionDedup l).toFinset = l.toFinset := by
    ext a
    simp [List.mem_toFinset, insertionDedup_mem]
  calc (insertionDedup l).length = (insertionDedup l).toFinset.card :=
        (List.toFinset_card_of_nodup hnd).symm
    _ = l.toFinset.card := by rw [htf]

/-! ## Helper lemmas: Math.min / Math.max folds -/

theorem foldl_min_le_init (t : List Rat) : ∀ h : Rat, t.foldl min h ≤ h := by
  induction t with
  | nil => intro h; simp
  | cons a t ih =>
    intro h
    calc (a :: t).foldl min h = t.foldl min (min h a) := by simp
      _ ≤ min h a := ih _
      _ ≤ h := min_le_left _ _

theorem foldl_min_le_mem (t : List Rat) :
    ∀ (h a : Rat), a ∈ t → t.foldl min h ≤ a := by
  induction t with
  | nil => intro h a ha; cases ha
  | cons b t ih =>
    intro h a ha
    rcases List.mem_cons.mp ha with rfl | hmem
    · calc (a :: t).foldl min h = t.foldl min (min h a) := by simp
        _ ≤ min h a := foldl_min_le_init _ _
        _ ≤ a := min_le_right _ _
    · simpa using ih (min h b) a hmem

theorem foldl_min_mem (t : List Rat) :
    ∀ h : Rat, t.foldl min h = h ∨ t.foldl min h ∈ t := by
  induction t with
  | nil => intro h; left; rfl
  | cons b t ih =>
    intro h
    have step : (b :: t).foldl min h = t.foldl min (min h b) := by simp
    rcases ih (min h b) with heq | hmem
    · rcases le_total h b with hb | hb
      · left; rw [step, heq, min_eq_left hb]
      · right; rw [step, heq, min_eq_right hb]; exact List.mem_cons_self _ _
    · right; rw [step]; exact List.mem_cons_of_mem _ hmem

theorem jsMinList_mem (l : List Rat) (h : l ≠ []) : jsMinList l ∈ l := by
  match l, h with
  | a :: t, _ =>
    show t.foldl min a ∈ a :: t
    rcases foldl_min_mem t a with heq | hmem
    · rw [heq]; exact List.mem_cons_self _ _
    · exact List.mem_cons_of_mem _ hmem

theorem jsMinList_le (l : List Rat) (a : Rat) (ha : a ∈ l) : jsMinList l ≤ a := by
  match l, ha with
  | b :: t, ha =>
    show t.foldl min b ≤ a
    rcases List.mem_cons.mp ha with rfl | hmem
    · exact foldl_min_le_init t a
    · exact foldl_min_le_mem t b a hmem

theorem foldl_max_le_init (t : List Rat) : ∀ h : Rat, h ≤ t.foldl max h := by
  induction t with
  | nil => intro h; simp
  | cons a t ih =>
    intro h
    calc h ≤ max h a := le_max_left _ _
      _ ≤ t.foldl max (max h a) := ih _
      _ = (a :: t).foldl max h := by simp

theorem foldl_max_le_mem (t : List Rat) :
    ∀ (h a : Rat), a ∈ t → a ≤ t.foldl max h := by
  induction t with
  | nil => intro h a ha; cases ha
  | cons b t ih =>
    intro h a ha
    rcases List.mem_cons.mp ha with rfl | hmem
    · calc a ≤ max h a := le_max_right _ _
        _ ≤ t.foldl max (max h a) := foldl_max_le_init _ _
        _ = (a :: t).foldl max h := by simp
    · simpa using ih (max h b) a hmem

theorem foldl_max_mem (t : List Rat) :
    ∀ h : Rat, t.foldl max h = h ∨ t.foldl max h ∈ t := by
  induction t with
  | nil => intro h; left; rfl
  | cons b t ih =>
    intro h
    have step : (b :: t).foldl max h = t.foldl max (max h b) := by simp
    rcases ih (max h b) with heq | hmem
    · rcases le_total h b with hb | hb
      · right; rw [step, heq, max_eq_right hb]; exact List.mem_cons_self _ _
      · left; rw [step, heq, max_eq_left hb]
    · right; rw [step]; exact List.mem_cons_of_mem _ hmem

theorem jsMaxList_mem (l : List Rat) (h : l ≠ []) : jsMaxList l ∈ l := by
  match l, h with
  | a :: t, _ =>
    show t.foldl max a ∈ a :: t
    rcases foldl_max_mem t a with heq | hmem
    · rw [heq]; exact List.mem_cons_self _ _
    · exact List.mem_cons_of_mem _ hmem

theorem jsMaxList_le (l : List Rat) (a : Rat) (ha : a ∈ l) : a ≤ jsMaxList l := by
  match l, ha with
  | b :: t, ha =>
    show a ≤ t.foldl max b
    rcases List.mem_cons.mp ha with rfl | hmem
    · exact foldl_max_le_init t a
    · exact foldl_max_le_mem t b a hmem

/-! ## Helper lemmas: chunk decomposition -/

theorem chunksOfAux_flatten (step : Nat) (hstep : 0 < step) :
    ∀ (fuel : Nat) (l : List ChartPoint), l.length ≤ fuel →
      (chunksOfAux step fuel l).flatten = l := by
  intro fuel
  induction fuel with
  | zero =>
    intro l hl
    have : l = [] := List.eq_nil_of_length_eq_zero (Nat.le_zero.mp hl)
    subst this; rfl
  | succ n ih =>
    intro l hl
    match l with
    | [] => rfl
    | a :: rest =>
      have hdrop : (List.drop step (a :: rest)).length ≤ n := by
        rw [List.length_drop]
        have : (a :: rest).length ≤ n + 1 := hl
        omega
      calc (chunksOfAux step (n + 1) (a :: rest)).flatten
          = (a :: rest).take step ++ (chunksOfAux step n ((a :: rest).drop step)).flatten := by
            rfl
        _ = (a :: rest).take step ++ (a :: rest).drop step := by rw [ih _ hdrop]
        _ = a :: rest := List.take_append_drop _ _

theorem chunksOfAux_mem (step : Nat) (hstep : 0 < step) :
    ∀ (fuel : Nat) (l c : List ChartPoint), c ∈ chunksOfAux step fuel l →
      c ≠ [] ∧ c.length ≤ step := by
  intro fuel
  induction fuel with
  | zero => intro l c hc; cases hc
  | succ n ih =>
    intro l c hc
    match l with
    | [] => cases hc
    | a :: rest =>
      rcases List.mem_cons.mp hc with rfl | hmem
      · constructor
        · have : 0 < ((a :: rest).take step).length := by
            rw [List.length_take]
            simp only [List.length_cons]
            omega
          exact List.ne_nil_of_length_pos this
        · rw [List.length_take]; exact min_le_left _ _
      · exact ih _ _ hmem

theorem chunksOfAux_count_le (step : Nat) (hstep : 0 < step) :
    ∀ (fuel : Nat) (l : List ChartPoint), l.length ≤ fuel →
      (chunksOfAux step fuel l).length ≤ (l.length + step - 1) / step := by
  intro fuel
  induction fuel with
  | zero =>
    intro l hl
    have hnil : l = [] := List.eq_nil_of_length_eq_zero (Nat.le_zero.mp hl)
    subst hnil
    have h0 : chunksOfAux step 0 ([] : List ChartPoint) = [] := rfl
    rw [h0]
    simp
  | succ n ih =>
    intro l hl
    match l with
    | [] =>
      have h0 : chunksOfAux step (n + 1) ([] : List ChartPoint) = [] := rfl
      rw [h0]
      simp
    | a :: rest =>
      have hlen : (a :: rest).length = rest.length + 1 := by simp
      have hdrop : (List.drop step (a :: rest)).length ≤ n := by
        rw [List.length_drop]; omega
      have hstepcount : (chunksOfAux step (n + 1) (a :: rest)).length
          = 1 + (chunksOfAux step n ((a :: rest).drop step)).length := by
        simp [chunksOfAux, Nat.add_comm]
      rw [hstepcount]
      have hrec := ih ((a :: rest).drop step) hdrop
      rw [List.length_drop] at hrec
      set m := (a :: rest).length with hm
      have hm1 : 1 ≤ m := by rw [hm]; simp
      by_cases hcase : m ≤ step
      · have hz : m - step = 0 := Nat.sub_eq_zero_of_le hcase
        rw [hz] at hrec
        have h0 : (0 + step - 1) / step = 0 :=
          Nat.div_eq_of_lt (by omega)
        rw [h0] at hrec
        have hrhs : 1 ≤ (m + step - 1) / step :=
          (Nat.one_le_div_iff hstep).mpr (by omega)
        omega
      · have hms : step ≤ m := by omega
        have heq1 : m - step + step - 1 = m - 1 := by omega
        rw [heq1] at hrec
        have heq2 : (m + step - 1) / step = (m - 1) / step + 1 := by
          have : m + step - 1 = (m - 1) + step := by omega
          rw [this, Nat.add_div_right _ hstep]
        omega

theorem chunksOf_flatten (step : Nat) (hstep : 0 < step) (l : List ChartPoint) :
    (chunksOf step l).flatten = l :=
  chunksOfAux_flatten step hstep l.length l (Nat.le_refl _)

theorem chunksOf_ne_nil (step : Nat) (l : List ChartPoint) (h : l ≠ []) :
    chunksOf step l ≠ [] := by
  match l, h with
  | a :: rest, _ =>
    show chunksOfAux step (rest.length + 1) (a :: rest) ≠ []
    simp [chunksOfAux]

/-! ## Helper lemmas: per-chunk representative selection -/

theorem nodup_lt_length_le (idxs : List Nat) (n : Nat) (hnd : idxs.Nodup)
    (hlt : ∀ i ∈ idxs, i < n) : idxs.length ≤ n := by
  have hsub : idxs.toFinset ⊆ Finset.range n := by
    intro i hi
    exact Finset.mem_range.mpr (hlt i (List.mem_toFinset.mp hi))
  calc idxs.length = idxs.toFinset.card := (List.toFinset_card_of_nodup hnd).symm
    _ ≤ (Finset.range n).card := Finset.card_le_card hsub
    _ = n := Finset.card_range n

theorem length_filterMap_get? (l : List ChartPoint) :
    ∀ idxs : List Nat,
      (idxs.filterMap (fun i => l.get? i)).length
        = (idxs.filter (fun i => i < l.length)).length := by
  intro idxs
  simp only [List.get?_eq_getElem?]
  induction idxs with
  | nil => rfl
  | cons i t ih =>
    rcases hc : l[i]? with _ | a
    · have hge : l.length ≤ i := List.getElem?_eq_none_iff.mp hc
      have hnlt : ¬ i < l.length := by omega
      simp [List.filterMap_cons, List.filter_cons, hc, hnlt, ih]
    · have hlt : i < l.length := by
        by_contra hge
        rw [List.getElem?_eq_none (by omega : l.length ≤ i)] at hc
        cases hc
      simp [List.filterMap_cons, List.filter_cons, hc, hlt, ih]

theorem minIdx_lt_length (chunk : List ChartPoint) (h : chunk ≠ []) :
    minIdx chunk < chunk.length := by
  unfold minIdx
  have hne : chunk.map (fun p => p.y) ≠ [] := by
    simpa using h
  have hmem := jsMinList_mem _ hne
  have := List.indexOf_lt_length.mpr hmem
  simpa using this

theorem maxIdx_lt_length (chunk : List ChartPoint) (h : chunk ≠ []) :
    maxIdx chunk < chunk.length := by
  unfold maxIdx
  have hne : chunk.map (fun p => p.y) ≠ [] := by
    simpa using h
  have hmem := jsMaxList_mem _ hne
  have := List.indexOf_lt_length.mpr hmem
  simpa using this

theorem chunkReps_length_bounds (chunk : List ChartPoint) (h : chunk ≠ []) :
    1 ≤ (chunkReps chunk).length ∧ (chunkReps chunk).length ≤ 4 ∧
      (chunkReps chunk).length ≤ chunk.length := by
  by_cases h1 : chunk.length = 1
  · rw [chunkReps, if_pos h1]
    omega
  · rw [chunkReps, if_neg h1]
    have hpos : 0 < chunk.length := List.length_pos.mpr h
    refine ⟨?_, ?_, ?_⟩
    · have h0mem : 0 ∈ insertionDedup [0, minIdx chunk, maxIdx chunk, chunk.length - 1] := by
        rw [insertionDedup_mem]
        simp
      have hget : chunk.get? 0 = some (chunk.get ⟨0, hpos⟩) := List.get?_eq_get hpos
      have hmemrep : chunk.get ⟨0, hpos⟩ ∈
          (insertionDedup [0, minIdx chunk, maxIdx chunk, chunk.length - 1]).filterMap
            (fun index => chunk.get? index) :=
        List.mem_filterMap.mpr ⟨0, h0mem, hget⟩
      exact List.length_pos.mpr (List.ne_nil_of_mem hmemrep)
    · calc ((insertionDedup [0, minIdx chunk, maxIdx chunk, chunk.length - 1]).filterMap
            (fun index => chunk.get? index)).length
          ≤ (insertionDedup [0, minIdx chunk, maxIdx chunk, chunk.length - 1]).length :=
            List.length_filterMap_le _ _
        _ ≤ ([0, minIdx chunk, maxIdx chunk, chunk.length - 1] : List Nat).length :=
            insertionDedup_length_le _
        _ = 4 := rfl
    · rw [length_filterMap_get?]
      apply nodup_lt_length_le
      · exact (insertionDedup_nodup _).filter _
      · intro i hi
        have := (List.mem_filter.mp hi).2
        simpa using this

theorem sum_map_le_mul (L : List (List ChartPoint)) (f : List ChartPoint → Nat) (c : Nat)
    (h : ∀ x ∈ L, f x ≤ c) : (L.map f).sum ≤ L.length * c := by
  induction L with
  | nil => simp
  | cons a t ih =>
    have ha : f a ≤ c := h a (List.mem_cons_self _ _)
    have ht : (t.map f).sum ≤ t.length * c := ih (fun x hx => h x (List.mem_cons_of_mem _ hx))
    simp only [List.map_cons, List.sum_cons, List.length_cons]
    calc f a + (t.map f).sum ≤ c + t.length * c := Nat.add_le_add ha ht
      _ = (t.length + 1) * c := by ring

theorem length_le_sum_map (L : List (List ChartPoint)) (f : List ChartPoint → Nat)
    (h : ∀ x ∈ L, 1 ≤ f x) : L.length ≤ (L.map f).sum := by
  induction L with
  | nil => simp
  | cons a t ih =>
    have ha : 1 ≤ f a := h a (List.mem_cons_self _ _)
    have ht : t.length ≤ (t.map f).sum := ih (fun x hx => h x (List.mem_cons_of_mem _ hx))
    simp only [List.map_cons, List.sum_cons, List.length_cons]
    omega

theorem sum_map_le_sum_map (L : List (List ChartPoint)) (f g : List ChartPoint → Nat)
    (h : ∀ x ∈ L, f x ≤ g x) : (L.map f).sum ≤ (L.map g).sum := by
  induction L with
  | nil => simp
  | cons a t ih =>
    have ha : f a ≤ g a := h a (List.mem_cons_self _ _)
    have ht := ih (fun x hx => h x (List.mem_cons_of_mem _ hx))
    simp only [List.map_cons, List.sum_cons]
    omega

/-- Core length bounds of the triggered downsampling path, shared by the
claims about `virtualizeData`. -/
theorem virtualizeData_length_bounds (m : Nat) (data : List ChartPoint)
    (hm : 1 ≤ m) (hlen : m < data.length) :
    1 ≤ (virtualizeData m data).length ∧ (virtualizeData m data).length ≤ 4 * m ∧
      (virtualizeData m data).length ≤ data.length := by
  have hnotle : ¬ data.length ≤ m := by omega
  set n := data.length with hn
  set step := (n + m - 1) / m with hstepdef
  have hvd : virtualizeData m data = ((chunksOf step data).map chunkReps).flatten := by
    rw [virtualizeData, if_neg hnotle]
  have hn1 : 1 ≤ n := by omega
  have hstep : 0 < step := by
    rw [hstepdef]
    exact (Nat.one_le_div_iff (by omega)).mpr (by omega)
  set L := chunksOf step data with hL
  have hchunkmem : ∀ c ∈ L, c ≠ [] ∧ c.length ≤ step := by
    intro c hc
    exact chunksOfAux_mem step hstep n data c hc
  have hflat : L.flatten = data := chunksOf_flatten step hstep data
  have hLne : L ≠ [] := chunksOf_ne_nil step data (by
    intro hnil
    rw [hnil] at hn
    simp at hn
    omega)
  have hcount : L.length ≤ m := by
    have h1 : L.length ≤ (n + step - 1) / step :=
      chunksOfAux_count_le step hstep n data (Nat.le_refl _)
    have hmul : n ≤ m * step := by
      have hdm := Nat.div_add_mod (n + m - 1) m
      have hmod := Nat.mod_lt (n + m - 1) (show 0 < m by omega)
      rw [hstepdef]
      omega
    have h2 : (n + step - 1) / step ≤ m := by
      rw [Nat.div_le_iff_le_mul_add_pred hstep]
      calc n + step - 1 ≤ m * step + (step - 1) := by omega
        _ = step * m + (step - 1) := by ring_nf
    omega
  have hout : (virtualizeData m data).length = (L.map (fun c => (chunkReps c).length)).sum := by
    rw [hvd, List.length_flatten, List.map_map]
    rfl
  refine ⟨?_, ?_, ?_⟩
  · rw [hout]
    have hLpos : 1 ≤ L.length := List.length_pos.mpr hLne
    have := length_le_sum_map L (fun c => (chunkReps c).length)
      (fun c hc => (chunkReps_length_bounds c (hchunkmem c hc).1).1)
    omega
  · rw [hout]
    have := sum_map_le_mul L (fun c => (chunkReps c).length) 4
      (fun c hc => (chunkReps_length_bounds c (hchunkmem c hc).1).2.1)
    calc (L.map fun c => (chunkReps c).length).sum ≤ L.length * 4 := this
      _ ≤ m * 4 := Nat.mul_le_mul_right _ hcount
      _ = 4 * m := by ring
  · rw [hout]
    have hle := sum_map_le_sum_map L (fun c => (chunkReps c).length) (fun c => c.length)
      (fun c hc => (chunkReps_length_bounds c (hchunkmem c hc).1).2.2)
    have hsum : (L.map (fun c => c.length)).sum = n := by
      have := List.length_flatten L
      rw [hflat] at this
      simpa using this.symm
    omega

theorem filterMap_get?_eq_map_getD (l : List ChartPoint) :
    ∀ idxs : List Nat, (∀ j ∈ idxs, j < l.length) →
      idxs.filterMap (fun j => l.get? j) = idxs.map (fun j => l.getD j ⟨0, 0⟩) := by
  intro idxs
  induction idxs with
  | nil => intro _; rfl
  | cons j t ih =>
    intro hall
    have hj : j < l.length := hall j (List.mem_cons_self _ _)
    have ht := ih (fun i hi => hall i (List.mem_cons_of_mem _ hi))
    simp only [List.get?_eq_getElem?, List.getD_eq_getElem?_getD] at ht
    simp only [List.filterMap_cons, List.map_cons, List.get?_eq_getElem?,
      List.getElem?_eq_getElem hj, List.getD_eq_getElem?_getD, Option.getD_some, ht]

theorem minIdx_getD_le (chunk : List ChartPoint) (h : chunk ≠ []) :
    ∀ p ∈ chunk, (chunk.getD (minIdx chunk) ⟨0, 0⟩).y ≤ p.y := by
  intro p hp
  have hne : chunk.map (fun q => q.y) ≠ [] := by simpa using h
  have hmem := jsMinList_mem _ hne
  have hlt : (chunk.map (fun q => q.y)).indexOf (jsMinList (chunk.map (fun q => q.y)))
      < (chunk.map (fun q => q.y)).length := List.indexOf_lt_length.mpr hmem
  have hltc : minIdx chunk < chunk.length := by
    have := hlt
    rw [List.length_map] at this
    exact this
  have hy : (chunk.getD (minIdx chunk) ⟨0, 0⟩).y = jsMinList (chunk.map (fun q => q.y)) := by
    rw [List.getD_eq_getElem?_getD, List.getElem?_eq_getElem hltc, Option.getD_some]
    calc chunk[minIdx chunk].y = (chunk.map (fun q => q.y))[minIdx chunk] := by
          rw [List.getElem_map]
      _ = jsMinList (chunk.map (fun q => q.y)) := by
          exact List.getElem_indexOf hlt
  rw [hy]
  exact jsMinList_le _ _ (List.mem_map_of_mem _ hp)

theorem maxIdx_getD_le (chunk : List ChartPoint) (h : chunk ≠ []) :
    ∀ p ∈ chunk, p.y ≤ (chunk.getD (maxIdx chunk) ⟨0, 0⟩).y := by
  intro p hp
  have hne : chunk.map (fun q => q.y) ≠ [] := by simpa using h
  have hmem := jsMaxList_mem _ hne
  have hlt : (chunk.map (fun q => q.y)).indexOf (jsMaxList (chunk.map (fun q => q.y)))
      < (chunk.map (fun q => q.y)).length := List.indexOf_lt_length.mpr hmem
  have hltc : maxIdx chunk < chunk.length := by
    have := hlt
    rw [List.length_map] at this
    exact this
  have hy : (chunk.getD (maxIdx chunk) ⟨0, 0⟩).y = jsMaxList (chunk.map (fun q => q.y)) := by
    rw [List.getD_eq_getElem?_getD, List.getElem?_eq_getElem hltc, Option.getD_some]
    calc chunk[maxIdx chunk].y = (chunk.map (fun q => q.y))[maxIdx chunk] := by
          rw [List.getElem_map]
      _ = jsMaxList (chunk.map (fun q => q.y)) := by
          exact List.getElem_indexOf hlt
  rw [hy]
  exact jsMaxList_le _ _ (List.mem_map_of_mem _ hp)

theorem chunkReps_characterization (chunk : List ChartPoint) (h : chunk ≠ []) :
    chunkReps chunk =
      (insertionDedup [0, minIdx chunk, maxIdx chunk, chunk.length - 1]).map
        (fun j => chunk.getD j ⟨0, 0⟩) := by
  by_cases h1 : chunk.length = 1
  · obtain ⟨a, rfl⟩ := List.length_eq_one.mp h1
    have hmin : minIdx [a] = 0 := by
      simp [minIdx, jsMinList, List.indexOf_cons_self]
    have hmax : maxIdx [a] = 0 := by
      simp [maxIdx, jsMaxList, List.indexOf_cons_self]
    rw [chunkReps, if_pos h1, hmin, hmax]
    rfl
  · rw [chunkReps, if_neg h1]
    have hpos : 0 < chunk.length := List.length_pos.mpr h
    apply filterMap_get?_eq_map_getD
    intro j hj
    have hj4 : j ∈ ([0, minIdx chunk, maxIdx chunk, chunk.length - 1] : List Nat) :=
      (insertionDedup_mem _ _).mp hj
    have hminlt := minIdx_lt_length chunk h
    have hmaxlt := maxIdx_lt_length chunk h
    simp only [List.mem_cons, List.not_mem_nil, or_false] at hj4
    rcases hj4 with rfl | rfl | rfl | rfl
    · omega
    · omega
    · omega
    · omega

/-! ## Helper lemmas: the parser -/

theorem jsOr1_ne_zero (o : Option Int) : jsOr1 o ≠ 0 := by
  rcases o with _ | v
  · simp [jsOr1]
  · by_cases hv : v = 0
    · simp [jsOr1, hv]
    · simp [jsOr1, hv]

theorem string_append_ne_empty (s t : String) (h : s ≠ "") : s ++ t ≠ "" := by
  intro hcontra
  apply h
  have hdata : s.data ++ t.data = [] := congrArg String.data hcontra
  have hs : s.data = [] := (List.append_eq_nil.mp hdata).1
  have hmk : s = String.mk s.data := rfl
  rw [hmk, hs]

/-- A row accepted by `parseRow` passed validation, never carries a
`productName`, and took its `orders` field from the `parseInt(tok) || 1`
coercion. -/
theorem parseRow_some_props (headers : List String) (i : Nat) (line : String) (r : SalesData)
    (h : parseRow headers i line = some r) :
    isValidSalesData r = true ∧ r.productName = none ∧
      r.orders = jsOr1 ((rowGet (buildRow headers (parseCsvLine line)) "orders").bind
        jsParseInt) := by
  rw [parseRow] at h
  by_cases h1 : (parseCsvLine line).length ≠ headers.length
  · rw [if_pos h1] at h
    cases h
  · rw [if_neg h1] at h
    by_cases h2 : isValidSalesData (parsedItem headers i (parseCsvLine line)) = true
    · rw [if_pos h2] at h
      obtain rfl := Option.some.inj h
      exact ⟨h2, rfl, rfl⟩
    · rw [if_neg h2] at h
      cases h

/-- Every record returned by the parser comes from an accepted
`parseRow`. -/
theorem parseCsv_mem_parseRow (csvText : String) (r : SalesData)
    (hr : r ∈ parseCsvToSalesData csvText) :
    ∃ headers i line, parseRow headers i line = some r := by
  rw [parseCsvToSalesData] at hr
  rcases hlines : ((splitOnChar '\n' csvText.data).map String.mk).filter
      (fun l => jsTrim l ≠ "") with _ | ⟨headerLine, dataLines⟩
  · rw [hlines] at hr
    cases hr
  · rw [hlines] at hr
    rw [parseCsvBody] at hr
    obtain ⟨p, _, hp⟩ := List.mem_filterMap.mp hr
    exact ⟨_, p.1, p.2, hp⟩

theorem foldl_add_revenue (data : List SalesData) :
    ∀ init : Rat, data.foldl (fun sum item => sum + item.revenue) init
      = init + (data.map (fun r => r.revenue)).sum := by
  induction data with
  | nil => intro init; simp
  | cons a t ih =>
    intro init
    simp only [List.foldl_cons, List.map_cons, List.sum_cons, ih]
    ring

/-- Fold invariant for the product map: when no processed record carries a
`productName`, every entry keeps its default `Product {productId}`
name. -/
theorem productStep_name_inv (acc : List ProductMetrics) (item : SalesData)
    (hitem : item.productName = none)
    (hacc : ∀ p ∈ acc, p.name = "Product " ++ p.productId) :
    ∀ p ∈ productStep acc item, p.name = "Product " ++ p.productId := by
  intro p hp
  rw [productStep] at hp
  have hacc2 : ∀ q ∈ (if acc.any (fun p => p.productId = item.productId) then acc
      else acc ++ [newProductEntry item]), q.name = "Product " ++ q.productId := by
    intro q hq
    by_cases hany : acc.any (fun p => p.productId = item.productId)
    · rw [if_pos hany] at hq
      exact hacc q hq
    · rw [if_neg hany] at hq
      rcases List.mem_append.mp hq with hmem | hmem
      · exact hacc q hmem
      · rcases List.mem_singleton.mp hmem with rfl
        rfl
  obtain ⟨q, hq, hpq⟩ := List.mem_map.mp hp
  by_cases heq : q.productId = item.productId
  · rw [if_pos heq] at hpq
    subst hpq
    rw [updateProductEntry, hitem]
    exact hacc2 q hq
  · rw [if_neg heq] at hpq
    subst hpq
    exact hacc2 q hq

theorem calculateProductMetrics_foldl_names (data : List SalesData) :
    ∀ acc : List ProductMetrics,
      (∀ r ∈ data, r.productName = none) →
      (∀ p ∈ acc, p.name = "Product " ++ p.productId) →
      ∀ p ∈ data.foldl productStep acc, p.name = "Product " ++ p.productId := by
  induction data with
  | nil => intro acc _ hacc; simpa using hacc
  | cons a t ih =>
    intro acc hdata hacc
    simp only [List.foldl_cons]
    exact ih (productStep acc a)
      (fun r hr => hdata r (List.mem_cons_of_mem _ hr))
      (productStep_name_inv acc a (hdata a (List.mem_cons_self _ _)) hacc)

/-! ## Claim theorems -/

/-- C5: for every point sequence whose length is at most maxPoints, the
downsampler returns the input sequence unchanged. -/
theorem c5_downsample_identity (points : List ChartPoint) (maxPoints : Nat)
    (h : points.length ≤ maxPoints) : virtualizeData maxPoints points = points := by
  rw [virtualizeData, if_pos h]

/-- Witness for C5 at a concrete 5-point input below a threshold of 10. -/
theorem c5_downsample_identity_witness :
    ([⟨0, 1⟩, ⟨1, 2⟩, ⟨2, 3⟩, ⟨3, 4⟩, ⟨4, 5⟩] : List ChartPoint).length ≤ 10 ∧
      virtualizeData 10 [⟨0, 1⟩, ⟨1, 2⟩, ⟨2, 3⟩, ⟨3, 4⟩, ⟨4, 5⟩]
        = ([⟨0, 1⟩, ⟨1, 2⟩, ⟨2, 3⟩, ⟨3, 4⟩, ⟨4, 5⟩] : List ChartPoint) :=
  ⟨by decide, c5_downsample_identity [⟨0, 1⟩, ⟨1, 2⟩, ⟨2, 3⟩, ⟨3, 4⟩, ⟨4, 5⟩] 10 (by decide)⟩

/-- C3 counterexample: with three points and maxPoints 2 the downsampler
triggers (3 > 2) yet returns all three points, so the output is not
strictly shorter than the input. -/
theorem c3_strictness_counterexample :
    1 ≤ 2 ∧ 2 < ([⟨0, 0⟩, ⟨1, 1⟩, ⟨2, 2⟩] : List ChartPoint).length ∧
      ¬ (virtualizeData 2 [⟨0, 0⟩, ⟨1, 1⟩, ⟨2, 2⟩]).length
          < ([⟨0, 0⟩, ⟨1, 1⟩, ⟨2, 2⟩] : List ChartPoint).length := by
  decide

/-- C3 amended: when downsampling triggers (maxPoints ≥ 1 and more points
than maxPoints), the output length is at least 1, at most 4 × maxPoints,
and at most — not strictly less than — the input length. -/
theorem c3_downsample_bounds (points : List ChartPoint) (maxPoints : Nat)
    (h1 : 1 ≤ maxPoints) (h2 : maxPoints < points.length) :
    1 ≤ (virtualizeData maxPoints points).length ∧
      (virtualizeData maxPoints points).length ≤ 4 * maxPoints ∧
      (virtualizeData maxPoints points).length ≤ points.length :=
  virtualizeData_length_bounds maxPoints points h1 h2

set_option maxRecDepth 10000 in
/-- Witness for C3 amended at 201 points with threshold 200. -/
theorem c3_downsample_bounds_witness :
    1 ≤ (virtualizeData 200 c3WitnessPoints).length ∧
      (virtualizeData 200 c3WitnessPoints).length ≤ 4 * 200 ∧
      (virtualizeData 200 c3WitnessPoints).length ≤ c3WitnessPoints.length :=
  c3_downsample_bounds c3WitnessPoints 200 (by decide) (by decide)

/-- C4: for a nonempty chunk the emitted representatives are exactly the
insertion-ordered deduplication of the index set (first, min-index,
max-index, last) mapped to the chunk elements — so a single-element chunk
yields itself, and the minimum is emitted before the maximum whenever its
index enters the set first, independent of time order — and the elements
at min-index and max-index achieve the chunk-local minimum and maximum
y. -/
theorem c4_chunk_representatives (chunk : List ChartPoint) (h : chunk ≠ []) :
    chunkReps chunk =
      (insertionDedup [0, minIdx chunk, maxIdx chunk, chunk.length - 1]).map
        (fun j => chunk.getD j ⟨0, 0⟩)
    ∧ (∀ p ∈ chunk, (chunk.getD (minIdx chunk) ⟨0, 0⟩).y ≤ p.y)
    ∧ (∀ p ∈ chunk, p.y ≤ (chunk.getD (maxIdx chunk) ⟨0, 0⟩).y)
    ∧ (chunk.length = 1 → chunkReps chunk = chunk) :=
  ⟨chunkReps_characterization chunk h, minIdx_getD_le chunk h, maxIdx_getD_le chunk h,
    fun h1 => by rw [chunkReps, if_pos h1]⟩

/-- Witness for C4 on a chunk whose minimum lies after its maximum. -/
theorem c4_chunk_representatives_witness :
    chunkReps [⟨0, 5⟩, ⟨1, 9⟩, ⟨2, 1⟩] =
      (insertionDedup [0, minIdx [⟨0, 5⟩, ⟨1, 9⟩, ⟨2, 1⟩],
        maxIdx [⟨0, 5⟩, ⟨1, 9⟩, ⟨2, 1⟩],
        ([⟨0, 5⟩, ⟨1, 9⟩, ⟨2, 1⟩] : List ChartPoint).length - 1]).map
          (fun j => ([⟨0, 5⟩, ⟨1, 9⟩, ⟨2, 1⟩] : List ChartPoint).getD j ⟨0, 0⟩)
    ∧ (∀ p ∈ ([⟨0, 5⟩, ⟨1, 9⟩, ⟨2, 1⟩] : List ChartPoint),
        (([⟨0, 5⟩, ⟨1, 9⟩, ⟨2, 1⟩] : List ChartPoint).getD
          (minIdx [⟨0, 5⟩, ⟨1, 9⟩, ⟨2, 1⟩]) ⟨0, 0⟩).y ≤ p.y)
    ∧ (∀ p ∈ ([⟨0, 5⟩, ⟨1, 9⟩, ⟨2, 1⟩] : List ChartPoint),
        p.y ≤ (([⟨0, 5⟩, ⟨1, 9⟩, ⟨2, 1⟩] : List ChartPoint).getD
          (maxIdx [⟨0, 5⟩, ⟨1, 9⟩, ⟨2, 1⟩]) ⟨0, 0⟩).y)
    ∧ (([⟨0, 5⟩, ⟨1, 9⟩, ⟨2, 1⟩] : List ChartPoint).length = 1 →
        chunkReps [⟨0, 5⟩, ⟨1, 9⟩, ⟨2, 1⟩] = [⟨0, 5⟩, ⟨1, 9⟩, ⟨2, 1⟩]) :=
  c4_chunk_representatives [⟨0, 5⟩, ⟨1, 9⟩, ⟨2, 1⟩] (by decide)

/-- C1: the claim (and the repository test, which asserts inclusive
bounds with `isBetween(..., null, [])` and expects the two boundary
records) requires a record dated exactly on `dateRange.start` to pass the
filter, but `applyFilters` calls `isBetween` with its default exclusive
inclusivity and drops it: at the test input, every claim-side membership
condition holds — the date lies within the inclusive range, both
restriction lists are empty, the record is in the set — yet the filtered
view is empty. -/
theorem c1_boundary_record_dropped :
    c1Filters.dateStart.ts ≤ c1Record.date.ts
    ∧ c1Record.date.ts ≤ c1Filters.dateEnd.ts
    ∧ c1Record.date.valid = true
    ∧ c1Filters.dateStart.valid = true
    ∧ c1Filters.dateEnd.valid = true
    ∧ c1Filters.regions = []
    ∧ c1Filters.categories = []
    ∧ c1Record ∈ [c1Record]
    ∧ applyFilters [c1Record] c1Filters = [] := by
  decide

/-- C2: the dashboard metrics of any record list satisfy the claimed
equations — total revenue is the sum of the revenue fields, total orders
counts records (and differs from the sum of the orderCount fields on some
input), the average guards the empty list, and the customer count is the
number of distinct customerId values. -/
theorem c2_dashboard_metrics (data : List SalesData) :
    (calculateDashboardMetrics data).totalRevenue = (data.map (fun r => r.revenue)).sum
    ∧ (calculateDashboardMetrics data).totalOrders = data.length
    ∧ (calculateDashboardMetrics data).averageOrderValue =
        (if data.length = 0 then 0
         else (data.map (fun r => r.revenue)).sum / (data.length : Rat))
    ∧ (calculateDashboardMetrics data).customerCount
        = (data.map (fun r => r.customerId)).toFinset.card
    ∧ ∃ d : List SalesData,
        (d.map (fun r => r.orders)).sum ≠ ((calculateDashboardMetrics d).totalOrders : Int) := by
  have hrev : (calculateDashboardMetrics data).totalRevenue
      = (data.map (fun r => r.revenue)).sum := by
    show data.foldl (fun sum item => sum + item.revenue) 0 = _
    rw [foldl_add_revenue]
    ring
  refine ⟨hrev, rfl, ?_, ?_, ?_⟩
  · show (if data.length > 0
        then data.foldl (fun sum item => sum + item.revenue) 0 / (data.length : Rat)
        else 0) = _
    by_cases hd : data.length = 0
    · rw [if_pos hd, if_neg (by omega)]
    · rw [if_neg hd, if_pos (by omega)]
      have : data.foldl (fun sum item => sum + item.revenue) 0
          = (data.map (fun r => r.revenue)).sum := hrev
      rw [this]
  · show jsSetSize (data.map (fun item => item.customerId)) = _
    rw [jsSetSize, insertionDedup_length_eq_card]
  · refine ⟨[⟨"i", ⟨true, 0⟩, 0, 2, "c", "p", none, "cat", "reg"⟩], ?_⟩
    decide

/-- C8 counterexample: a failed fetch in `importSalesDataFromCsv` leaves
the pre-import record set in place instead of emptying it, so a dataset
holding a record before the failing import still holds it afterwards. -/
theorem c8_stale_data_counterexample :
    (importSalesDataFromCsv [c8Record] (FetchResult.fetchErr "404")).1 = [c8Record]
    ∧ [c8Record] ≠ ([] : List SalesData) := by
  exact ⟨rfl, by decide⟩

/-- C8 amended: on a failed fetch the sample-asset load path stores the
empty record set, while `importSalesDataFromCsv` surfaces the failure to
the caller as a recoverable error but leaves the stored record set
unchanged — retaining any pre-import records. -/
theorem c8_fetch_failure_behavior (state : List SalesData) (e : String) :
    loadSampleDataFromAssets (FetchResult.fetchErr e) = []
    ∧ (importSalesDataFromCsv state (FetchResult.fetchErr e)).1 = state
    ∧ (importSalesDataFromCsv state (FetchResult.fetchErr e)).2 = Except.error e :=
  ⟨rfl, rfl, rfl⟩

set_option maxRecDepth 1000000 in
unseal Rat.mul Rat.add Rat.inv Rat.sub in
/-- C7: parsing the canonical sample text yields exactly 6 valid records
with ids order_001 through order_006 in order, all dates resolvable, and
the first region equal to North America. -/
theorem c7_sample_roundtrip :
    (parseCsvToSalesData generateSampleCsvContent).length = 6
    ∧ (parseCsvToSalesData generateSampleCsvContent).map (fun r => r.id)
        = ["order_001", "order_002", "order_003", "order_004", "order_005", "order_006"]
    ∧ (∀ r ∈ parseCsvToSalesData generateSampleCsvContent, r.date.valid = true)
    ∧ ((parseCsvToSalesData generateSampleCsvContent).headD defaultSalesData).region
        = "North America" := by
  decide

set_option maxRecDepth 1000000 in
unseal Rat.mul Rat.add Rat.inv Rat.sub in
/-- C9 counterexample: on a CSV row whose orders token is -5 the parser
accepts the record with orderCount -5 < 1 — `parseInt(tok) || 1` keeps
negative integers and `isValidSalesData` never inspects orders. -/
theorem c9_negative_orders_counterexample :
    ∃ r ∈ parseCsvToSalesData c9NegativeOrdersCsv, r.orders < 1 := by
  decide

/-- C9 amended: every record the parser accepts has nonnegative revenue
(validated) and a nonzero orderCount (the `|| 1` fallback maps NaN and 0
to 1), but orderCount ≥ 1 is not guaranteed: a negative orders token
passes through unvalidated. -/
theorem c9_parser_invariant (csvText : String) :
    ∀ r ∈ parseCsvToSalesData csvText, 0 ≤ r.revenue ∧ r.orders ≠ 0 := by
  intro r hr
  obtain ⟨headers, i, line, hrow⟩ := parseCsv_mem_parseRow csvText r hr
  obtain ⟨hvalid, _, horders⟩ := parseRow_some_props headers i line r hrow
  simp only [isValidSalesData, Bool.and_eq_true, decide_eq_true_eq] at hvalid
  constructor
  · tauto
  · rw [horders]
    exact jsOr1_ne_zero _

set_option maxRecDepth 1000000 in
unseal Rat.mul Rat.add Rat.inv Rat.sub in
/-- Witness for C9 amended at the negative-orders input. -/
theorem c9_parser_invariant_witness :
    0 ≤ ((parseCsvToSalesData c9NegativeOrdersCsv).headD defaultSalesData).revenue
    ∧ ((parseCsvToSalesData c9NegativeOrdersCsv).headD defaultSalesData).orders ≠ 0 :=
  c9_parser_invariant c9NegativeOrdersCsv _ (by decide)

/-- C10: the parser never sets productName — the field mapping omits it
even when the header declares the column and the row supplies a value —
and consequently the product aggregation branch that would replace the
default `Product {productId}` name never fires on parser-produced
records: every aggregate keeps its default name. -/
theorem c10_productName_absent :
    (∀ csvText : String, ∀ r ∈ parseCsvToSalesData csvText, r.productName = none)
    ∧ (∀ data : List SalesData, (∀ r ∈ data, r.productName = none) →
        ∀ p ∈ calculateProductMetrics data, p.name = "Product " ++ p.productId) := by
  constructor
  · intro csvText r hr
    obtain ⟨headers, i, line, hrow⟩ := parseCsv_mem_parseRow csvText r hr
    exact (parseRow_some_props headers i line r hrow).2.1
  · intro data hdata
    exact calculateProductMetrics_foldl_names data [] hdata (by intro p hp; cases hp)

set_option maxRecDepth 1000000 in
unseal Rat.mul Rat.add Rat.inv Rat.sub in
/-- Witness for C10 at a CSV input that supplies the string Fancy Widget
in a declared productName column. -/
theorem c10_productName_absent_witness :
    ((parseCsvToSalesData c10Csv).headD defaultSalesData).productName = none
    ∧ ((calculateProductMetrics (parseCsvToSalesData c10Csv)).headD
          defaultProductMetrics).name
        = "Product " ++ ((calculateProductMetrics (parseCsvToSalesData c10Csv)).headD
          defaultProductMetrics).productId :=
  ⟨c10_productName_absent.1 c10Csv _ (by decide),
    c10_productName_absent.2 (parseCsvToSalesData c10Csv)
      (c10_productName_absent.1 c10Csv) _ (by decide)⟩

/-- C6: a data row of 1-based index i (header excluded) whose token count
matches the header and that supplies only a parseable date — every other
mapped field absent or blank, and the numeric revenue and orders tokens
absent, blank or non-numeric — yields exactly the record with the keyed
defaults: order_i, revenue 0, orderCount 1, customer_i, product_i, and
Unknown category and region. -/
theorem c6_defaulting (headers : List String) (i : Nat) (line : String) (d : String)
    (hlen : (parseCsvLine line).length = headers.length)
    (hdate : rowGet (buildRow headers (parseCsvLine line)) "date" = some d)
    (hvalid : (momentParse d).valid = true)
    (hid : rowGet (buildRow headers (parseCsvLine line)) "id" = none
      ∨ rowGet (buildRow headers (parseCsvLine line)) "id" = some "")
    (hrev : (rowGet (buildRow headers (parseCsvLine line)) "revenue").bind jsParseFloat
      = none)
    (hord : (rowGet (buildRow headers (parseCsvLine line)) "orders").bind jsParseInt
      = none)
    (hcust : rowGet (buildRow headers (parseCsvLine line)) "customerId" = none
      ∨ rowGet (buildRow headers (parseCsvLine line)) "customerId" = some "")
    (hprod : rowGet (buildRow headers (parseCsvLine line)) "productId" = none
      ∨ rowGet (buildRow headers (parseCsvLine line)) "productId" = some "")
    (hcat : rowGet (buildRow headers (parseCsvLine line)) "category" = none
      ∨ rowGet (buildRow headers (parseCsvLine line)) "category" = some "")
    (hreg : rowGet (buildRow headers (parseCsvLine line)) "region" = none
      ∨ rowGet (buildRow headers (parseCsvLine line)) "region" = some "") :
    parseRow headers i line = some
      { id := "order_" ++ Nat.repr i
        date := momentParse d
        revenue := 0
        orders := 1
        customerId := "customer_" ++ Nat.repr i
        productId := "product_" ++ Nat.repr i
        productName := none
        category := "Unknown"
        region := "Unknown" } := by
  have hidv : jsOrStr (rowGet (buildRow headers (parseCsvLine line)) "id")
      ("order_" ++ Nat.repr i) = "order_" ++ Nat.repr i := by
    rcases hid with h | h <;> simp [jsOrStr, h]
  have hcustv : jsOrStr (rowGet (buildRow headers (parseCsvLine line)) "customerId")
      ("customer_" ++ Nat.repr i) = "customer_" ++ Nat.repr i := by
    rcases hcust with h | h <;> simp [jsOrStr, h]
  have hprodv : jsOrStr (rowGet (buildRow headers (parseCsvLine line)) "productId")
      ("product_" ++ Nat.repr i) = "product_" ++ Nat.repr i := by
    rcases hprod with h | h <;> simp [jsOrStr, h]
  have hcatv : jsOrStr (rowGet (buildRow headers (parseCsvLine line)) "category")
      "Unknown" = "Unknown" := by
    rcases hcat with h | h <;> simp [jsOrStr, h]
  have hregv : jsOrStr (rowGet (buildRow headers (parseCsvLine line)) "region")
      "Unknown" = "Unknown" := by
    rcases hreg with h | h <;> simp [jsOrStr, h]
  have hdatev : momentOfOpt (rowGet (buildRow headers (parseCsvLine line)) "date")
      = momentParse d := by
    rw [hdate]
    rfl
  have hrevv : jsOr0 ((rowGet (buildRow headers (parseCsvLine line)) "revenue").bind
      jsParseFloat) = 0 := by
    rw [hrev]
    rfl
  have hordv : jsOr1 ((rowGet (buildRow headers (parseCsvLine line)) "orders").bind
      jsParseInt) = 1 := by
    rw [hord]
    rfl
  have hitem : parsedItem headers i (parseCsvLine line) =
      { id := "order_" ++ Nat.repr i
        date := momentParse d
        revenue := 0
        orders := 1
        customerId := "customer_" ++ Nat.repr i
        productId := "product_" ++ Nat.repr i
        productName := none
        category := "Unknown"
        region := "Unknown" } := by
    simp only [parsedItem]
    rw [hidv, hcustv, hprodv, hcatv, hregv, hdatev, hrevv, hordv]
  have hval : isValidSalesData
      { id := "order_" ++ Nat.repr i
        date := momentParse d
        revenue := 0
        orders := 1
        customerId := "customer_" ++ Nat.repr i
        productId := "product_" ++ Nat.repr i
        productName := none
        category := "Unknown"
        region := "Unknown" } = true := by
    have h1 := string_append_ne_empty "order_" (Nat.repr i) (by decide)
    have h2 := string_append_ne_empty "customer_" (Nat.repr i) (by decide)
    have h3 := string_append_ne_empty "product_" (Nat.repr i) (by decide)
    simp [isValidSalesData, hvalid, h1, h2, h3]
  rw [parseRow, if_neg (by simp [hlen])]
  show (if isValidSalesData (parsedItem headers i (parseCsvLine line))
      then some (parsedItem headers i (parseCsvLine line)) else none) = _
  rw [hitem, if_pos hval]

set_option maxRecDepth 1000000 in
/-- Witness for C6 at the row of the repository defaulting test: only the
date column of the nine standard columns is supplied. -/
theorem c6_defaulting_witness :
    parseRow c6Headers 1 c6Line = some
      { id := "order_" ++ Nat.repr 1
        date := momentParse "2025-10-05"
        revenue := 0
        orders := 1
        customerId := "customer_" ++ Nat.repr 1
        productId := "product_" ++ Nat.repr 1
        productName := none
        category := "Unknown"
        region := "Unknown" } :=
  c6_defaulting c6Headers 1 c6Line "2025-10-05" (by decide) (by decide) (by decide)
    (by decide) (by decide) (by decide) (by decide) (by decide) (by decide) (by decide)

end CommerceAnalytics
